import Mathlib

/-!
A shallow embedding of `skiff-transport-msgpack` (`src/lib/index.js`), a TCP
RPC transport with a connector role (reconnecting client) and a listener role
(server with a pool of live connections).  The module composes three external
collaborators — `rpc-stream` (multiplexer), `msgpack-stream` (codec) and
`reconnect-net` (retry loop) — around plain sockets.  We embed the module's
own event handlers and methods as pure step functions over explicit state,
with stream objects named by allocation ids and emitted events recorded in
order.
-/

namespace Skiff

/-- A node of the stream-pipe graph: either a TCP socket (identified by the
id the environment gave the connection) or a stream object the module
allocated (`rpc()`, `MsgPack.createEncodeStream()`,
`MsgPack.createDecodeStream()`), identified by allocation order. -/
inductive Node where
  | sock (id : Nat)
  | stream (id : Nat)
deriving DecidableEq, Repr

/-- The client proxy produced by `remote.wrap(remoteMethods)`: one callable
per declared method name, bound to the multiplexer (`rpc()` stream) of one
connection. -/
structure ClientProxy where
  methods : List String
  mux : Nat
deriving DecidableEq, Repr

/-- Events the connector handle (`ee`) emits, with their payloads exactly as
in the source: `ee.emit('connect', client)`, `ee.emit('reconnect')`,
`ee.emit('disconnect')`. -/
inductive CEvent where
  | connect (client : ClientProxy)
  | reconnect
  | disconnect
deriving DecidableEq, Repr

/-- The state of the `EventEmitter` handle returned by `connect`, together
with bookkeeping for the per-connection wiring: `pipes` records every
`a.pipe(b)` edge ever made, `nextId` is the allocator for fresh stream
objects, `events` the emissions in order. -/
structure EE where
  connected : Bool
  client : Option ClientProxy
  events : List CEvent
  pipes : List (Node × Node)
  nextId : Nat
deriving DecidableEq, Repr

/-- `ee.emit(e)`: appends the event to the emission log.  Listeners run at
this point and observe the handle's current fields. -/
def emitEvent (e : CEvent) (s : EE) : EE :=
  { s with events := s.events ++ [e] }

/-- The four `pipe` edges `onConnect` makes, with `remote = rpc()` allocated
first (id `n`), then the encode stream (`n+1`), then the decode stream
(`n+2`): `remote.pipe(encode).pipe(con); con.pipe(decode).pipe(remote)`. -/
def wiringEdges (n conId : Nat) : List (Node × Node) :=
  [(Node.stream n, Node.stream (n + 1)),
   (Node.stream (n + 1), Node.sock conId),
   (Node.sock conId, Node.stream (n + 2)),
   (Node.stream (n + 2), Node.stream n)]

/-- The body of `onConnect` up to but not including the final
`ee.emit('connect', client)`: build the wiring, wrap the remote methods,
set `ee.connected = true` and `ee.client = client`.  Returns the handle
state as the emit-time listeners observe it, together with the client. -/
def onConnectPre (remoteMethods : List String) (s : EE) (conId : Nat) :
    EE × ClientProxy :=
  let client : ClientProxy := { methods := remoteMethods, mux := s.nextId }
  ({ s with
      connected := true
      client := some client
      pipes := s.pipes ++ wiringEdges s.nextId conId
      nextId := s.nextId + 3 },
   client)

/-- `onConnect(con)`: per-connection wiring, wrap, set flags, then emit
`'connect'` carrying the client. -/
def onConnect (remoteMethods : List String) (s : EE) (conId : Nat) : EE :=
  emitEvent (CEvent.connect (onConnectPre remoteMethods s conId).2)
    (onConnectPre remoteMethods s conId).1

/-- `onReconnect()`: `ee.emit('reconnect')` and nothing else. -/
def onReconnect (s : EE) : EE :=
  emitEvent CEvent.reconnect s

/-- `onDisconnect()`: `ee.connected = false; ee.emit('disconnect')`. -/
def onDisconnect (s : EE) : EE :=
  emitEvent CEvent.disconnect { s with connected := false }

/-- The events the underlying `reconnect-net` emitter `r` delivers to the
handlers registered in `connect`: `'connect'` with an established
connection, `'reconnect'`, `'disconnect'`. -/
inductive REvent where
  | rconnect (conId : Nat)
  | rreconnect
  | rdisconnect
deriving DecidableEq, Repr

/-- Dispatch one `r` event to the registered handler. -/
def connectorStep (remoteMethods : List String) (s : EE) : REvent → EE
  | REvent.rconnect conId => onConnect remoteMethods s conId
  | REvent.rreconnect => onReconnect s
  | REvent.rdisconnect => onDisconnect s

/-- The handle as `connect` returns it: `ee.connected = false`, no client
ever assigned, nothing emitted, nothing wired. -/
def connectInit : EE :=
  { connected := false, client := none, events := [], pipes := [], nextId := 0 }

/-- Run the handle from its initial state over a sequence of `r` events. -/
def runConnector (remoteMethods : List String) (evs : List REvent) : EE :=
  evs.foldl (connectorStep remoteMethods) connectInit

/-- The stream ids an edge mentions (sockets contribute none). -/
def edgeStreamIds : Node × Node → List Nat
  | (Node.sock _, Node.sock _) => []
  | (Node.sock _, Node.stream b) => [b]
  | (Node.stream a, Node.sock _) => [a]
  | (Node.stream a, Node.stream b) => [a, b]

/-- Every stream id wired so far is below the allocator, so the next
allocations are fresh. -/
def pipesBound (s : EE) : Bool :=
  s.pipes.all (fun p => (edgeStreamIds p).all (· < s.nextId))

theorem pipesBound_step (rm : List String) (s : EE) (e : REvent)
    (h : pipesBound s = true) : pipesBound (connectorStep rm s e) = true := by
  cases e with
  | rconnect conId =>
    simp only [pipesBound, connectorStep, onConnect, emitEvent, onConnectPre,
      List.all_eq_true, decide_eq_true_eq] at h ⊢
    intro p hp
    simp only [List.mem_append, wiringEdges, List.mem_cons,
      List.not_mem_nil, or_false] at hp
    intro i hi
    rcases hp with hp | rfl | rfl | rfl | rfl
    · exact lt_of_lt_of_le (h p hp i hi) (by omega)
    all_goals simp only [edgeStreamIds, List.mem_cons, List.not_mem_nil,
      or_false] at hi
    all_goals omega
  | rreconnect => exact h
  | rdisconnect => exact h

theorem pipesBound_run (rm : List String) (evs : List REvent) :
    pipesBound (runConnector rm evs) = true := by
  suffices h : ∀ (s : EE), pipesBound s = true →
      pipesBound (evs.foldl (connectorStep rm) s) = true by
    exact h connectInit (by decide)
  induction evs with
  | nil => intro s hs; exact hs
  | cons e rest ih =>
    intro s hs
    exact ih (connectorStep rm s e) (pipesBound_step rm s e hs)

/-- Recognizer for the underlying emitter's successful-connection event. -/
def isRConnect : REvent → Bool
  | REvent.rconnect _ => true
  | _ => false

theorem connected_false_of_noConnect (rm : List String) :
    ∀ (evs : List REvent) (s : EE),
      evs.all (fun e => !isRConnect e) = true → s.connected = false →
      (evs.foldl (connectorStep rm) s).connected = false := by
  intro evs
  induction evs with
  | nil => intro s _ hs; exact hs
  | cons e rest ih =>
    intro s h hs
    simp only [List.all_cons, Bool.and_eq_true] at h
    cases e with
    | rconnect c => simp [isRConnect] at h
    | rreconnect => exact ih _ h.2 hs
    | rdisconnect => exact ih _ h.2 rfl

/-- The payload (if any) an emitted event delivers. -/
def eventClient : CEvent → Option ClientProxy
  | CEvent.connect c => some c
  | _ => none

/-- C1: on every successful underlying TCP connection, `onConnect` builds
fresh per-connection wiring (a fresh multiplexer id `n`, encode `n+1` and
decode `n+2`, all unused by any earlier wiring, piped to the socket), wraps
the declared method set into a ClientProxy, sets `connected` to `true`,
stores that ClientProxy as the current client, and emits `'connect'`
carrying exactly that ClientProxy. -/
theorem connect_success_builds_wiring_and_emits (rm : List String)
    (evs : List REvent) (conId : Nat) :
    (onConnect rm (runConnector rm evs) conId).connected = true ∧
    (onConnect rm (runConnector rm evs) conId).client =
      some { methods := rm, mux := (runConnector rm evs).nextId } ∧
    (onConnect rm (runConnector rm evs) conId).events =
      (runConnector rm evs).events ++
        [CEvent.connect { methods := rm, mux := (runConnector rm evs).nextId }] ∧
    (onConnect rm (runConnector rm evs) conId).pipes =
      (runConnector rm evs).pipes ++
        wiringEdges (runConnector rm evs).nextId conId ∧
    (∀ p ∈ (runConnector rm evs).pipes, ∀ i ∈ edgeStreamIds p,
      i < (runConnector rm evs).nextId) := by
  refine ⟨rfl, rfl, rfl, rfl, ?_⟩
  have h := pipesBound_run rm evs
  simp only [pipesBound, List.all_eq_true, decide_eq_true_eq] at h
  exact h

/-- C10: whenever a `'connect'` listener runs, the handle already has
`connected = true` and `client` equal to the ClientProxy passed to the
listener (both assigned strictly before the emit); before any successful
connection, `connected` is `false`. -/
theorem connect_listener_observes_assigned_state :
    connectInit.connected = false ∧
    (∀ (rm : List String) (s : EE) (conId : Nat),
      (onConnectPre rm s conId).1.connected = true ∧
      (onConnectPre rm s conId).1.client = some (onConnectPre rm s conId).2 ∧
      onConnect rm s conId =
        emitEvent (CEvent.connect (onConnectPre rm s conId).2)
          (onConnectPre rm s conId).1) ∧
    (∀ (rm : List String) (evs : List REvent),
      evs.all (fun e => !isRConnect e) = true →
      (runConnector rm evs).connected = false) := by
  refine ⟨rfl, fun rm s conId => ⟨rfl, rfl, rfl⟩, ?_⟩
  intro rm evs h
  exact connected_false_of_noConnect rm evs connectInit h rfl

/-- Witness for C10 at a concrete trace without a successful connection. -/
theorem connect_listener_observes_assigned_state_witness :
    (runConnector ["ping"] [REvent.rdisconnect, REvent.rreconnect]).connected
      = false :=
  connect_listener_observes_assigned_state.2.2 ["ping"]
    [REvent.rdisconnect, REvent.rreconnect] (by decide)

/-- C4 counterexample: after a link loss the handle keeps the stale
ClientProxy — `onDisconnect` never clears `ee.client`, so the client slot
does not become absent. -/
theorem disconnect_keeps_client_counterexample :
    (runConnector ["ping"] [REvent.rconnect 0, REvent.rdisconnect]).connected
      = false ∧
    (runConnector ["ping"] [REvent.rconnect 0, REvent.rdisconnect]).client
      = some { methods := ["ping"], mux := 0 } ∧
    (runConnector ["ping"] [REvent.rconnect 0, REvent.rdisconnect]).client
      ≠ none ∧
    (runConnector ["ping"] [REvent.rconnect 0, REvent.rdisconnect]).events
      = [CEvent.connect { methods := ["ping"], mux := 0 }, CEvent.disconnect]
    := ⟨rfl, rfl, by decide, rfl⟩

/-- C4 (amended): on every link loss the handle's `connected` flag is set to
`false` and a `'disconnect'` event is emitted, while the `client` slot (and
everything else) is left unchanged, still holding the stale ClientProxy. -/
theorem disconnect_clears_flag_keeps_client (s : EE) :
    (onDisconnect s).connected = false ∧
    (onDisconnect s).client = s.client ∧
    (onDisconnect s).events = s.events ++ [CEvent.disconnect] ∧
    (onDisconnect s).pipes = s.pipes ∧
    (onDisconnect s).nextId = s.nextId :=
  ⟨rfl, rfl, rfl, rfl, rfl⟩

/-- C5 counterexample: across a loss and a successful reestablishment, the
`'reconnect'` event is emitted with no payload — no ClientProxy is delivered
via `'reconnect'`; the fresh ClientProxy arrives only in the following
`'connect'` event. -/
theorem reconnect_event_has_no_client_counterexample :
    (runConnector ["ping"] [REvent.rconnect 0, REvent.rdisconnect,
        REvent.rreconnect, REvent.rconnect 1]).events =
      [CEvent.connect { methods := ["ping"], mux := 0 }, CEvent.disconnect,
       CEvent.reconnect, CEvent.connect { methods := ["ping"], mux := 3 }] ∧
    ((runConnector ["ping"] [REvent.rconnect 0, REvent.rdisconnect,
        REvent.rreconnect, REvent.rconnect 1]).events.all
      (fun e => !(e == CEvent.reconnect) || (eventClient e == none))) = true
    := ⟨rfl, by decide⟩

/-- C5 (amended): on every reestablishment after a link loss, `connected`
transitions `true → false → true`; a payload-less `'reconnect'` event marks
the reconnection, and the fresh ClientProxy (distinct from the previous one)
is delivered via a new `'connect'` event. -/
theorem reconnect_transitions_fresh_client_via_connect (rm : List String)
    (evs : List REvent) (con1 con2 : Nat) :
    (runConnector rm (evs ++ [REvent.rconnect con1])).connected = true ∧
    (runConnector rm (evs ++ [REvent.rconnect con1,
        REvent.rdisconnect])).connected = false ∧
    (runConnector rm (evs ++ [REvent.rconnect con1, REvent.rdisconnect,
        REvent.rreconnect, REvent.rconnect con2])).connected = true ∧
    (runConnector rm (evs ++ [REvent.rconnect con1])).client =
      some { methods := rm, mux := (runConnector rm evs).nextId } ∧
    (runConnector rm (evs ++ [REvent.rconnect con1, REvent.rdisconnect,
        REvent.rreconnect, REvent.rconnect con2])).client =
      some { methods := rm, mux := (runConnector rm evs).nextId + 3 } ∧
    (runConnector rm (evs ++ [REvent.rconnect con1, REvent.rdisconnect,
        REvent.rreconnect, REvent.rconnect con2])).client ≠
      (runConnector rm (evs ++ [REvent.rconnect con1])).client ∧
    (runConnector rm (evs ++ [REvent.rconnect con1, REvent.rdisconnect,
        REvent.rreconnect])).events =
      (runConnector rm (evs ++ [REvent.rconnect con1,
        REvent.rdisconnect])).events ++ [CEvent.reconnect] ∧
    (runConnector rm (evs ++ [REvent.rconnect con1, REvent.rdisconnect,
        REvent.rreconnect, REvent.rconnect con2])).events =
      (runConnector rm (evs ++ [REvent.rconnect con1, REvent.rdisconnect,
        REvent.rreconnect])).events ++
        [CEvent.connect { methods := rm, mux := (runConnector rm evs).nextId + 3 }]
    := by
  refine ⟨?_, ?_, ?_, ?_, ?_, ?_, ?_, ?_⟩ <;>
    simp only [runConnector, List.foldl_append, List.foldl_cons,
      List.foldl_nil] <;>
    first
      | rfl
      | (simp only [connectorStep, onConnect, onConnectPre, onDisconnect,
          onReconnect, emitEvent, ne_eq, Option.some.injEq,
          ClientProxy.mk.injEq, not_and]
         intro _
         omega)

/-- Modelled from the spec: the `reconnect-net` emitter `r` (an external
collaborator, not part of this repository).  It records the target handed to
`.connect(port, hostname)`, whether the retry loop is still wanted, and the
active connection, if any. -/
structure Reconnector where
  target : Option (Int × String)
  wantsReconnect : Bool
  activeCon : Option Nat
  endRequested : Bool
deriving DecidableEq, Repr

/-- Modelled from the spec: `reconnect()` — a fresh emitter with the retry
loop armed and no connection yet. -/
def reconnectModule : Reconnector :=
  { target := none, wantsReconnect := true, activeCon := none,
    endRequested := false }

/-- Modelled from the spec: `r.connect(port, hostname)` — begin the
connection-attempt loop toward the given target, whatever the values are. -/
def rConnectCall (r : Reconnector) (port : Int) (hostname : String) :
    Reconnector :=
  { r with target := some (port, hostname) }

/-- Modelled from the spec: `r.disconnect()` — cancel any in-progress
attempt, end the active connection if present, stop the retry loop; safe in
every state. -/
def rDisconnect (r : Reconnector) : Reconnector :=
  { r with
      wantsReconnect := false
      activeCon := none
      endRequested := r.endRequested || r.activeCon.isSome }

/-- The `disconnect` method the handle exposes (source lines 48–50):
it only delegates to `r.disconnect()`. -/
def connectorDisconnect (r : Reconnector) : Reconnector :=
  rDisconnect r

/-- What `connect(remoteMethods, hostname, port)` (source lines 23–61)
produces: the started reconnector, the returned handle, and the method set
captured by the registered `onConnect` closure. -/
structure ConnectResult where
  r : Reconnector
  ee : EE
  remoteMethods : List String
deriving DecidableEq, Repr

/-- `connect` itself: `var r = reconnect().connect(port, hostname)`, a fresh
emitter handle with `connected = false`, handlers registered — and no
branching on any argument. -/
def connectCall (remoteMethods : List String) (hostname : String)
    (port : Int) : ConnectResult :=
  { r := rConnectCall reconnectModule port hostname
    ee := connectInit
    remoteMethods := remoteMethods }

/-- C8 counterexample: called with an empty RemoteMethodSet and malformed
host/port, `connect` rejects nothing — it starts the underlying connection
attempt toward exactly those values and returns the ordinary handle. -/
theorem connect_no_validation_counterexample :
    (connectCall [] "" (-1)).r.target = some (-1, "") ∧
    (connectCall [] "" (-1)).r.target ≠ none ∧
    (connectCall [] "" (-1)).ee = connectInit :=
  ⟨rfl, by decide, rfl⟩

/-- C8 (amended): `connect` performs no argument validation at all; for every
method set (empty included) and every host/port it unconditionally passes the
values to the underlying reconnector and returns the initial handle. -/
theorem connect_passes_arguments_unvalidated (rm : List String)
    (hostname : String) (port : Int) :
    connectCall rm hostname port =
      { r := { target := some (port, hostname), wantsReconnect := true,
               activeCon := none, endRequested := false }
        ee := connectInit
        remoteMethods := rm } :=
  rfl

/-- JavaScript `Array.prototype.indexOf`: the index of the first occurrence,
`-1` when absent. -/
def jsIndexOf : List Nat → Nat → Int
  | [], _ => -1
  | y :: ys, x =>
      if y = x then 0
      else if jsIndexOf ys x < 0 then -1 else jsIndexOf ys x + 1

/-- JavaScript `splice(idx, 1)`: remove the single element at `idx`. -/
def splice1 (xs : List Nat) (idx : Nat) : List Nat :=
  xs.take idx ++ xs.drop (idx + 1)

/-- `rpcConnectionClosed` (source lines 95–100), acting on the pool: look up
the connection's index, and splice it out only when found. -/
def rpcConnectionClosed (pool : List Nat) (con : Nat) : List Nat :=
  if 0 ≤ jsIndexOf pool con then splice1 pool (jsIndexOf pool con).toNat
  else pool

theorem jsIndexOf_neg_of_not_mem (con : Nat) :
    ∀ pool : List Nat, con ∉ pool → jsIndexOf pool con < 0 := by
  intro pool
  induction pool with
  | nil =>
    intro _
    show (-1 : Int) < 0
    decide
  | cons y ys ih =>
    intro h
    simp only [List.mem_cons, not_or] at h
    have hy : ¬ y = con := fun hc => h.1 hc.symm
    have hr := ih h.2
    simp only [jsIndexOf, if_neg hy, if_pos hr]
    decide

theorem rpcConnectionClosed_eq_erase (con : Nat) :
    ∀ pool : List Nat, rpcConnectionClosed pool con = pool.erase con := by
  intro pool
  induction pool with
  | nil => rfl
  | cons y ys ih =>
    by_cases hy : y = con
    · subst hy
      have h1 : jsIndexOf (y :: ys) y = 0 := by
        simp [jsIndexOf]
      simp only [rpcConnectionClosed, h1]
      rw [if_pos (by decide)]
      simp [splice1, List.erase_cons_head]
    · have hbeq : (y == con) = false := beq_eq_false_iff_ne.mpr hy
      have herase : (y :: ys).erase con = y :: ys.erase con := by
        simp [List.erase_cons, hbeq]
      rcases lt_or_le (jsIndexOf ys con) 0 with hr | hr
      · have h1 : jsIndexOf (y :: ys) con = -1 := by
          simp only [jsIndexOf, if_neg hy, if_pos hr]
        have h2 : rpcConnectionClosed (y :: ys) con = y :: ys := by
          simp only [rpcConnectionClosed, h1]
          rw [if_neg (by decide)]
        have h3 : rpcConnectionClosed ys con = ys := by
          simp only [rpcConnectionClosed, if_neg (not_le.mpr hr)]
        rw [h2, herase, ← ih, h3]
      · have h1 : jsIndexOf (y :: ys) con = jsIndexOf ys con + 1 := by
          simp only [jsIndexOf, if_neg hy, if_neg (not_lt.mpr hr)]
        have h2 : (jsIndexOf ys con + 1).toNat
            = (jsIndexOf ys con).toNat + 1 := by
          omega
        have h3 : rpcConnectionClosed ys con
            = splice1 ys (jsIndexOf ys con).toNat := by
          simp only [rpcConnectionClosed, if_pos hr]
        rw [herase, ← ih, h3]
        simp only [rpcConnectionClosed, h1]
        rw [if_pos (by omega), h2]
        rfl

/-- C7: for every accepted connection, the registered one-time close handler
removes exactly that connection from the pool (the first occurrence, i.e.
`List.erase`); when the connection is already absent the handler is a no-op
and does not fault. -/
theorem close_handler_removes_exactly_once (pool : List Nat) (con : Nat) :
    rpcConnectionClosed pool con = pool.erase con ∧
    (con ∉ pool → rpcConnectionClosed pool con = pool) ∧
    (∀ pre post : List Nat, con ∉ pre → pool = pre ++ con :: post →
      rpcConnectionClosed pool con = pre ++ post) := by
  refine ⟨rpcConnectionClosed_eq_erase con pool, ?_, ?_⟩
  · intro h
    rw [rpcConnectionClosed_eq_erase con pool]
    exact List.erase_of_not_mem h
  · intro pre post hpre hsplit
    subst hsplit
    rw [rpcConnectionClosed_eq_erase con (pre ++ con :: post),
      List.erase_append_right _ hpre, List.erase_cons_head]

/-- Witness for C7: the handler is a no-op on a pool not holding the
connection, and removes exactly the matching member otherwise. -/
theorem close_handler_removes_exactly_once_witness :
    rpcConnectionClosed [7] 5 = [7] ∧ rpcConnectionClosed [3, 5, 9] 5 = [3, 9]
    := ⟨(close_handler_removes_exactly_once [7] 5).2.1 (by decide),
        (close_handler_removes_exactly_once [3, 5, 9] 5).2.2 [3] [9]
          (by decide) rfl⟩

/-- Observable actions of the listener, in program order: wiring an accepted
socket to a service instance, the original `close` stopping the accept loop,
`con.end()` issued on a pooled connection, and the server's own asynchronous
`'close'` report. -/
inductive LAction where
  | wire (conId : Nat)
  | stopAccept
  | endCon (conId : Nat)
  | serverClosed
deriving DecidableEq, Repr

/-- Modelled from the spec: `socket.end()` (node collaborator) — request a
graceful end; requesting it again on an already-ending socket is a no-op. -/
def endSocket (ended : List Nat) (c : Nat) : List Nat :=
  if c ∈ ended then ended else ended ++ [c]

/-- Fold `endSocket` over a list of connections (the `forEach` of `close`). -/
def endAll (ended : List Nat) : List Nat → List Nat
  | [] => ended
  | c :: cs => endAll (endSocket ended c) cs

/-- The state of the `net` server returned by `listen`: the accept switch,
`__connections` (the pool), plus bookkeeping — which accepted sockets have
not yet reported `'close'`, which sockets were ever accepted, which have had
`end()` requested, and the ordered action log. -/
structure NetServer where
  accepting : Bool
  connections : List Nat
  openCons : List Nat
  everAccepted : List Nat
  ended : List Nat
  log : List LAction
deriving DecidableEq, Repr

/-- `onConnection(con)` (source lines 88–101): push the connection onto
`__connections`, wire it to a fresh rpc service over the codec, and register
the one-time close handler.  The socket is now one of the open ones. -/
def onConnection (s : NetServer) (conId : Nat) : NetServer :=
  { s with
      connections := s.connections ++ [conId]
      openCons := s.openCons ++ [conId]
      everAccepted := s.everAccepted ++ [conId]
      log := s.log ++ [LAction.wire conId] }

/-- The socket's `'close'` event: the registered `rpcConnectionClosed`
handler runs on the pool, and the socket stops being open. -/
def onConClose (s : NetServer) (conId : Nat) : NetServer :=
  { s with
      connections := rpcConnectionClosed s.connections conId
      openCons := s.openCons.erase conId }

/-- Modelled from the spec: the original `netServer.close` (node collaborator)
— stop accepting new connections; the server's own `'close'` report arrives
asynchronously later and is not part of this call. -/
def serverCloseOrig (s : NetServer) : NetServer :=
  { s with accepting := false, log := s.log ++ [LAction.stopAccept] }

/-- The overridden `netServer.close` (source lines 121–127): call the
original close, then synchronously `con.end()` every pooled connection. -/
def netServerClose (s : NetServer) : NetServer :=
  { serverCloseOrig s with
      ended := endAll (serverCloseOrig s).ended (serverCloseOrig s).connections
      log := (serverCloseOrig s).log
        ++ (serverCloseOrig s).connections.map LAction.endCon }

/-- Happenings the listener reacts to: an accepted connection, a pooled
socket's `'close'` event, the user calling the `close` method, and the
listening socket's own later `'close'` report. -/
inductive LEvent where
  | accept (conId : Nat)
  | conClose (conId : Nat)
  | callClose
  | serverClosedEvt
deriving DecidableEq, Repr

def listenerStep (s : NetServer) : LEvent → NetServer
  | LEvent.accept c => onConnection s c
  | LEvent.conClose c => onConClose s c
  | LEvent.callClose => netServerClose s
  | LEvent.serverClosedEvt => { s with log := s.log ++ [LAction.serverClosed] }

/-- The server as `listen` sets it up: accepting, with an empty
`__connections` pool. -/
def serverInit : NetServer :=
  { accepting := true, connections := [], openCons := [], everAccepted := [],
    ended := [], log := [] }

def runListener (evs : List LEvent) : NetServer :=
  evs.foldl listenerStep serverInit

theorem pool_eq_open_step (s : NetServer) (e : LEvent)
    (h : s.connections = s.openCons) :
    (listenerStep s e).connections = (listenerStep s e).openCons := by
  cases e with
  | accept c => simp only [listenerStep, onConnection, h]
  | conClose c =>
    simp only [listenerStep, onConClose, rpcConnectionClosed_eq_erase, h]
  | callClose => simpa only [listenerStep, netServerClose, serverCloseOrig]
  | serverClosedEvt => simpa only [listenerStep]

/-- C6: at every observation point the pool `__connections` holds exactly the
accepted connections whose sockets are still open; an accept appends the
connection once, and the close handler removes it (first occurrence). -/
theorem pool_members_are_open_sockets (evs : List LEvent) :
    (runListener evs).connections = (runListener evs).openCons ∧
    (∀ (s : NetServer) (c : Nat),
      (onConnection s c).connections = s.connections ++ [c] ∧
      (onConnection s c).openCons = s.openCons ++ [c]) ∧
    (∀ (s : NetServer) (c : Nat),
      (onConClose s c).connections = s.connections.erase c ∧
      (onConClose s c).openCons = s.openCons.erase c) := by
  refine ⟨?_, fun s c => ⟨rfl, rfl⟩,
    fun s c => ⟨rpcConnectionClosed_eq_erase c s.connections, rfl⟩⟩
  suffices h : ∀ (s : NetServer), s.connections = s.openCons →
      (evs.foldl listenerStep s).connections
        = (evs.foldl listenerStep s).openCons by
    exact h serverInit rfl
  induction evs with
  | nil => intro s hs; exact hs
  | cons e rest ih => intro s hs; exact ih _ (pool_eq_open_step s e hs)

/-- Checks that every `endCon` in the log comes after a `serverClosed`
report; the flag carries whether a report has been seen. -/
def endsAfterClosedAux : List LAction → Bool → Bool
  | [], _ => true
  | LAction.serverClosed :: rest, _ => endsAfterClosedAux rest true
  | LAction.endCon _ :: rest, seen => seen && endsAfterClosedAux rest seen
  | _ :: rest, seen => endsAfterClosedAux rest seen

def endsAfterClosedReport (log : List LAction) : Bool :=
  endsAfterClosedAux log false

/-- C3 counterexample: with one pooled connection, `close` issues
`con.end()` immediately, before the listening socket's own `'close'` report
— not after it, as the claim states. -/
theorem close_ends_pool_before_report_counterexample :
    (runListener [LEvent.accept 0, LEvent.callClose,
        LEvent.serverClosedEvt]).log =
      [LAction.wire 0, LAction.stopAccept, LAction.endCon 0,
       LAction.serverClosed] ∧
    endsAfterClosedReport (runListener [LEvent.accept 0, LEvent.callClose,
        LEvent.serverClosedEvt]).log = false :=
  ⟨rfl, rfl⟩

/-- C3 (amended): `close` stops accepting new connections and then
immediately — synchronously, without waiting for the listening socket to
report closed — initiates a graceful end on every Connection currently in
the pool. -/
theorem close_stops_accepting_then_ends_pool (s : NetServer) :
    (netServerClose s).accepting = false ∧
    (netServerClose s).log =
      s.log ++ LAction.stopAccept :: s.connections.map LAction.endCon ∧
    (netServerClose s).ended = endAll s.ended s.connections ∧
    (netServerClose s).connections = s.connections := by
  refine ⟨rfl, ?_, rfl, rfl⟩
  simp [netServerClose, serverCloseOrig]

theorem mem_endSocket_of_mem {ended : List Nat} {x : Nat} (c : Nat)
    (h : x ∈ ended) : x ∈ endSocket ended c := by
  unfold endSocket
  split
  · exact h
  · exact List.mem_append_left _ h

theorem mem_endAll_of_mem {x : Nat} :
    ∀ (cs : List Nat) (ended : List Nat), x ∈ ended → x ∈ endAll ended cs := by
  intro cs
  induction cs with
  | nil => intro ended h; exact h
  | cons c rest ih =>
    intro ended h
    exact ih _ (mem_endSocket_of_mem c h)

theorem mem_endAll_of_mem_list {x : Nat} :
    ∀ (cs : List Nat) (ended : List Nat), x ∈ cs → x ∈ endAll ended cs := by
  intro cs
  induction cs with
  | nil => intro ended h; cases h
  | cons c rest ih =>
    intro ended h
    rcases List.mem_cons.mp h with rfl | h
    · refine mem_endAll_of_mem rest _ ?_
      unfold endSocket
      split
      · assumption
      · exact List.mem_append_right _ (List.mem_singleton.mpr rfl)
    · exact ih _ h

theorem endAll_of_subset :
    ∀ (cs : List Nat) (ended : List Nat), (∀ c ∈ cs, c ∈ ended) →
      endAll ended cs = ended := by
  intro cs
  induction cs with
  | nil => intro ended _; rfl
  | cons c rest ih =>
    intro ended h
    have hc : endSocket ended c = ended := by
      unfold endSocket
      rw [if_pos (h c (List.mem_cons_self c rest))]
    show endAll (endSocket ended c) rest = ended
    rw [hc]
    exact ih _ (fun d hd => h d (List.mem_cons_of_mem c hd))

theorem endAll_idem (ended cs : List Nat) :
    endAll (endAll ended cs) cs = endAll ended cs :=
  endAll_of_subset cs (endAll ended cs)
    (fun _ hc => mem_endAll_of_mem_list cs ended hc)

/-- C9: the connector's `disconnect()` — a pure delegation to the
reconnector's own `disconnect` — is idempotent and safe before any
connection was ever made, and the listener's `close()` called twice in
succession re-ends only already-ending sockets: no error, no double removal,
no change to the pool or to the set of ended sockets. -/
theorem disconnect_and_close_idempotent :
    (∀ r : Reconnector,
      connectorDisconnect (connectorDisconnect r) = connectorDisconnect r) ∧
    connectorDisconnect reconnectModule =
      { reconnectModule with wantsReconnect := false } ∧
    (∀ s : NetServer,
      (netServerClose (netServerClose s)).accepting = false ∧
      (netServerClose (netServerClose s)).ended = (netServerClose s).ended ∧
      (netServerClose (netServerClose s)).connections
        = (netServerClose s).connections ∧
      (netServerClose (netServerClose s)).openCons
        = (netServerClose s).openCons) := by
  refine ⟨?_, rfl, ?_⟩
  · intro r
    simp [connectorDisconnect, rDisconnect]
  · intro s
    refine ⟨rfl, ?_, rfl, rfl⟩
    show endAll (endAll s.ended s.connections) s.connections
      = endAll s.ended s.connections
    exact endAll_idem s.ended s.connections

/-- One invocation of the user-supplied `listen` callback: the error
argument, if one was passed, and whether any second (server) argument was
passed at all.  The source passes none: `callback()` on success
(line 109) and `callback(err)` via the `'error'` listener (line 115). -/
structure CbCall where
  err : Option Nat
  serverArg : Bool
deriving DecidableEq, Repr

/-- The callback machinery of `listen` (source lines 73–115): the
`once(callback)` latch, whether the `'error'` once-listener is still
attached, whether the `'listening'` completion is still pending, and the
invocations actually delivered to the user's callback. -/
structure ListenCbState where
  fired : Bool
  errArmed : Bool
  listenArmed : Bool
  calls : List CbCall
deriving DecidableEq, Repr

/-- The `once(callback)` wrapper: invoke the underlying callback only if it
has not run before. -/
def callOnce (s : ListenCbState) (c : CbCall) : ListenCbState :=
  if s.fired then s
  else { s with fired := true, calls := s.calls ++ [c] }

/-- `onceListening` (source lines 107–110): remove the error listener, then
invoke the wrapped callback with no arguments. -/
def onceListening (s : ListenCbState) : ListenCbState :=
  callOnce { s with errArmed := false } { err := none, serverArg := false }

/-- Events the underlying `net` server may emit toward `listen`'s wiring. -/
inductive NSEvent where
  | listening
  | errorEvt (e : Nat)
deriving DecidableEq, Repr

def listenCbStep (s : ListenCbState) : NSEvent → ListenCbState
  | NSEvent.listening =>
      if s.listenArmed then onceListening { s with listenArmed := false }
      else s
  | NSEvent.errorEvt e =>
      if s.errArmed then
        callOnce { s with errArmed := false }
          { err := some e, serverArg := false }
      else s

/-- The wiring as `listen` leaves it: callback unfired, both listeners
armed. -/
def listenCbInit : ListenCbState :=
  { fired := false, errArmed := true, listenArmed := true, calls := [] }

def runListenCb (evs : List NSEvent) : ListenCbState :=
  evs.foldl listenCbStep listenCbInit

/-- The once-latch accounts exactly for the delivered calls. -/
def cbCountInv (s : ListenCbState) : Bool :=
  s.calls.length == (if s.fired then 1 else 0)

theorem cbCountInv_step (s : ListenCbState) (e : NSEvent)
    (h : cbCountInv s = true) : cbCountInv (listenCbStep s e) = true := by
  have hlen : s.calls.length = (if s.fired then 1 else 0) := by
    simpa [cbCountInv] using h
  cases e with
  | listening =>
    by_cases hl : s.listenArmed
    · by_cases hf : s.fired
      · simp [listenCbStep, onceListening, callOnce, cbCountInv, hl, hf, hlen]
      · simp [listenCbStep, onceListening, callOnce, cbCountInv, hl, hf, hlen]
    · simpa [listenCbStep, cbCountInv, hl] using h
  | errorEvt e =>
    by_cases hl : s.errArmed
    · by_cases hf : s.fired
      · simp [listenCbStep, callOnce, cbCountInv, hl, hf, hlen]
      · simp [listenCbStep, callOnce, cbCountInv, hl, hf, hlen]
    · simpa [listenCbStep, cbCountInv, hl] using h

theorem cbCountInv_run (evs : List NSEvent) :
    cbCountInv (runListenCb evs) = true := by
  suffices h : ∀ s : ListenCbState, cbCountInv s = true →
      cbCountInv (evs.foldl listenCbStep s) = true by
    exact h listenCbInit (by decide)
  induction evs with
  | nil => intro s hs; exact hs
  | cons e rest ih => intro s hs; exact ih _ (cbCountInv_step s e hs)

/-- C2 evidence: the callback fires at most once over any event sequence,
and on each of the four realizable bind outcomes (success, bind error, and
both racing in either order) exactly one call is delivered, the winner's;
but the successful call carries no arguments at all — in particular no
server handle in the second slot, contradicting the documented
`callback(error, server)` shape. -/
theorem listen_callback_once_but_no_server_arg :
    (∀ evs : List NSEvent, (runListenCb evs).calls.length ≤ 1) ∧
    (runListenCb [NSEvent.listening]).calls
      = [{ err := none, serverArg := false }] ∧
    (runListenCb [NSEvent.errorEvt 98]).calls
      = [{ err := some 98, serverArg := false }] ∧
    (runListenCb [NSEvent.listening, NSEvent.errorEvt 98]).calls
      = [{ err := none, serverArg := false }] ∧
    (runListenCb [NSEvent.errorEvt 98, NSEvent.listening]).calls
      = [{ err := some 98, serverArg := false }] := by
  refine ⟨?_, rfl, rfl, rfl, rfl⟩
  intro evs
  have h := cbCountInv_run evs
  simp only [cbCountInv, beq_iff_eq] at h
  rw [h]
  split <;> omega

end Skiff
